import Mathlib

/-!
# Request instrumentation and portfolio seeding

A shallow embedding of two pieces of the repository:

* `dee_build_registry/src/main.go`: `instrumentHandler`, the `responseWriter`
  decorator and the two metric vectors it feeds;
* `gr/.../src/main.go`: `insertData` and `getData` over the `portfolio` table.

A handler body is a tree of calls on the `http.ResponseWriter` it was given; every
continuation receives what the call returned (or the value it panicked with), so a
handler may react to the writer in any way.  Handlers reach the world modelled here
only through that writer: in the source nothing but `instrumentHandler` touches the
two metric vectors.  `Header()` is modelled as a call that yields the contents of the
map; what a handler then stores in that map goes to the map of the underlying writer
without passing through a method of the decorator.  Durations are kept in nanoseconds
(the source converts them to floating-point seconds), a histogram series as the list of
its observations.
-/

namespace Davtro

/-! ## The HTTP side -/

/-- The value carried by a Go panic. -/
abbrev PanicValue := String

/-- What a call yields to its caller: a result, or a panic unwinding through it. -/
abbrev Ret (α : Type) := Except PanicValue α

/-- Contents of an `http.Header` map as seen by a reader. -/
abbrev HeaderMap := List (String × List String)

/-- The fields of `*http.Request` read by this program. -/
structure http.Request where
  Method : String
  URLPath : String
deriving DecidableEq, Repr

/-- Constant `http.StatusOK`. -/
def http.StatusOK : Int := 200

/-- The method set of the interface `http.ResponseWriter`, over an implementation
whose receiver state has type `σ`.  Each method returns the new receiver state. -/
structure http.ResponseWriter (σ : Type) where
  Header : σ → Ret HeaderMap × σ
  Write : σ → List Nat → Ret (Int × Option String) × σ
  WriteHeader : σ → Int → Ret Unit × σ

/-- One call on a response writer, with its arguments. -/
inductive Call where
  | Header
  | Write (b : List Nat)
  | WriteHeader (code : Int)
deriving DecidableEq, Repr

/-- Body of a handler: the calls it makes on its writer, each continuation taking the
value the call returned. -/
inductive Body where
  | ret
  | panic (v : PanicValue)
  | Header (k : Ret HeaderMap → Body)
  | Write (b : List Nat) (k : Ret (Int × Option String) → Body)
  | WriteHeader (code : Int) (k : Ret Unit → Body)

/-- A handler, `http.HandlerFunc`: its body for a given request. -/
abbrev HandlerFunc := http.Request → Body

/-- How a call of a handler ends. -/
inductive Outcome where
  | returned
  | panicked (v : PanicValue)
deriving DecidableEq, Repr

/-- Result of running a handler body on a writer: how it ended, the writer afterwards
and the calls the body made on that writer, in order. -/
structure Run (σ : Type) where
  outcome : Outcome
  w : σ
  calls : List Call

/-- Prepend a call to the log of a run. -/
def Run.logged {σ : Type} (c : Call) (r : Run σ) : Run σ :=
  { r with calls := c :: r.calls }

/-- Run a handler body on the writer `W` in receiver state `w`. -/
def Body.run {σ : Type} (W : http.ResponseWriter σ) : Body → σ → Run σ
  | .ret, w => ⟨.returned, w, []⟩
  | .panic v, w => ⟨.panicked v, w, []⟩
  | .Header k, w =>
    Run.logged .Header (Body.run W (k (W.Header w).1) (W.Header w).2)
  | .Write b k, w =>
    Run.logged (.Write b) (Body.run W (k (W.Write w b).1) (W.Write w b).2)
  | .WriteHeader code k, w =>
    Run.logged (.WriteHeader code)
      (Body.run W (k (W.WriteHeader w code).1) (W.WriteHeader w code).2)

/-- A writer that also keeps the list of calls that reached it (oldest first). -/
def traced {σ : Type} (W : http.ResponseWriter σ) : http.ResponseWriter (σ × List Call) where
  Header := fun s => ((W.Header s.1).1, ((W.Header s.1).2, s.2 ++ [Call.Header]))
  Write := fun s b => ((W.Write s.1 b).1, ((W.Write s.1 b).2, s.2 ++ [Call.Write b]))
  WriteHeader := fun s code =>
    ((W.WriteHeader s.1 code).1, ((W.WriteHeader s.1 code).2, s.2 ++ [Call.WriteHeader code]))

/-- A writer without state that accepts every call. -/
def nullWriter : http.ResponseWriter Unit where
  Header := fun _ => (.ok [], ())
  Write := fun _ b => (.ok ((b.length : Int), none), ())
  WriteHeader := fun _ _ => (.ok (), ())

/-! ## The `responseWriter` decorator -/

/-- The struct `responseWriter`: the embedded writer and the cached status code. -/
structure responseWriter (σ : Type) where
  ResponseWriter : σ
  statusCode : Int

/-- Method `(*responseWriter).WriteHeader`: store the code, then forward the call. -/
def responseWriter.WriteHeader {σ : Type} (W : http.ResponseWriter σ) (rw : responseWriter σ)
    (code : Int) : Ret Unit × responseWriter σ :=
  let rw1 : responseWriter σ := { rw with statusCode := code }
  ((W.WriteHeader rw1.ResponseWriter code).1,
    { rw1 with ResponseWriter := (W.WriteHeader rw1.ResponseWriter code).2 })

/-- Method `Header`, promoted from the embedded writer. -/
def responseWriter.Header {σ : Type} (W : http.ResponseWriter σ) (rw : responseWriter σ) :
    Ret HeaderMap × responseWriter σ :=
  ((W.Header rw.ResponseWriter).1, { rw with ResponseWriter := (W.Header rw.ResponseWriter).2 })

/-- Method `Write`, promoted from the embedded writer. -/
def responseWriter.Write {σ : Type} (W : http.ResponseWriter σ) (rw : responseWriter σ)
    (b : List Nat) : Ret (Int × Option String) × responseWriter σ :=
  ((W.Write rw.ResponseWriter b).1, { rw with ResponseWriter := (W.Write rw.ResponseWriter b).2 })

/-- The method set of `*responseWriter` as an `http.ResponseWriter`. -/
def responseWriter.methods {σ : Type} (W : http.ResponseWriter σ) :
    http.ResponseWriter (responseWriter σ) where
  Header := responseWriter.Header W
  Write := responseWriter.Write W
  WriteHeader := responseWriter.WriteHeader W

/-! ## Clock and metric vectors -/

/-- Labels of one series of `http_requests_total`: path, method, status. -/
abbrev CounterKey := String × String × String

/-- Labels of one series of `http_request_duration_seconds`: path, method. -/
abbrev DurationKey := String × String

/-- The process-wide state `instrumentHandler` uses: the clock (as the sequence of its
successive readings, in nanoseconds, and the number of readings taken so far) and the two
metric vectors.  A histogram series is kept as the list of its observations. -/
structure World where
  clock : Nat → Int
  reads : Nat
  httpRequestsTotal : CounterKey → Nat
  httpRequestDuration : DurationKey → List Int

/-- A world whose metric vectors have no samples yet. -/
def World.fresh (clock : Nat → Int) : World :=
  { clock := clock, reads := 0, httpRequestsTotal := fun _ => 0, httpRequestDuration := fun _ => [] }

/-- Function `time.Now`. -/
def time.Now (s : World) : Int × World :=
  (s.clock s.reads, { s with reads := s.reads + 1 })

/-- Function `time.Since(start)`, kept in nanoseconds. -/
def time.Since (start : Int) (s : World) : Int × World :=
  ((time.Now s).1 - start, (time.Now s).2)

/-- Formatting `fmt.Sprintf("%d", n)`. -/
def fmt.Sprintf_d (n : Int) : String := toString n

/-- Call `vec.WithLabelValues(k...).Inc()` on a counter vector. -/
def CounterVec.Inc (vec : CounterKey → Nat) (k : CounterKey) : CounterKey → Nat :=
  fun k1 => if k1 = k then vec k1 + 1 else vec k1

/-- Call `vec.WithLabelValues(k...).Observe(d)` on a histogram vector. -/
def HistogramVec.Observe (vec : DurationKey → List Int) (k : DurationKey) (d : Int) :
    DurationKey → List Int :=
  fun k1 => if k1 = k then vec k1 ++ [d] else vec k1

/-! ## `instrumentHandler` -/

/-- The two recording statements that end the closure of `instrumentHandler`. -/
def instrumentHandler.record (path method : String) (statusCode duration : Int) (s : World) :
    World :=
  let s1 := { s with
    httpRequestDuration := HistogramVec.Observe s.httpRequestDuration (path, method) duration }
  { s1 with
    httpRequestsTotal :=
      CounterVec.Inc s1.httpRequestsTotal (path, method, fmt.Sprintf_d statusCode) }

/-- Result of one call of an instrumented handler. -/
structure Served (σ : Type) where
  outcome : Outcome
  w : σ
  world : World

/-- The first two statements after the clock reading in the closure of `instrumentHandler`:
build `ww := &responseWriter{ResponseWriter: w, statusCode: http.StatusOK}` and call
`handler(ww, r)`. -/
def wrappedRun {σ : Type} (handler : HandlerFunc) (W : http.ResponseWriter σ) (w : σ)
    (r : http.Request) : Run (responseWriter σ) :=
  let ww : responseWriter σ := { ResponseWriter := w, statusCode := http.StatusOK }
  (handler r).run (responseWriter.methods W) ww

/-- The closure returned by `instrumentHandler(path, handler)`, called with the writer `W`
in state `w` and the request `r`, in the world `s`.  A panic of the handler unwinds through
the closure, which has no deferred call. -/
def instrumentHandler {σ : Type} (path : String) (handler : HandlerFunc)
    (W : http.ResponseWriter σ) (w : σ) (r : http.Request) (s : World) : Served σ :=
  let start := (time.Now s).1
  let s1 := (time.Now s).2
  let res := wrappedRun handler W w r
  match res.outcome with
  | .panicked v => ⟨.panicked v, res.w.ResponseWriter, s1⟩
  | .returned =>
    let duration := (time.Since start s1).1
    let s2 := (time.Since start s1).2
    ⟨.returned, res.w.ResponseWriter,
      instrumentHandler.record path r.Method res.w.statusCode duration s2⟩

/-- Successive calls of one instrumented handler, each request with a writer of its own. -/
def invocations {σ : Type} (path : String) (handler : HandlerFunc) (W : http.ResponseWriter σ) :
    List (http.Request × σ) → World → World
  | [], s => s
  | (r, w) :: rest, s => invocations path handler W rest (instrumentHandler path handler W w r s).world

/-- A completed request as the recording statements see it. -/
structure Completed where
  path : String
  method : String
  statusCode : Int
  duration : Int
deriving DecidableEq, Repr

/-- The recording statements applied for a list of completed requests, in list order. -/
def recordAll (cs : List Completed) (s : World) : World :=
  cs.foldl (fun acc c => instrumentHandler.record c.path c.method c.statusCode c.duration acc) s

/-! ## Reading a call log -/

/-- The status the cached field holds after the calls `cs`, starting from `sc`: the code of
the last `WriteHeader` call. -/
def lastWriteHeader (sc : Int) : List Call → Int
  | [] => sc
  | .WriteHeader code :: cs => lastWriteHeader code cs
  | _ :: cs => lastWriteHeader sc cs

/-- The first status written by the calls `cs`, in the words of the specification: the code
of the first `WriteHeader`, or 200 when a body `Write` comes before any `WriteHeader`. -/
def firstStatusWritten : List Call → Option Int
  | [] => none
  | .Header :: cs => firstStatusWritten cs
  | .Write _ :: _ => some 200
  | .WriteHeader code :: _ => some code

/-- Whether a call is a `WriteHeader`. -/
def Call.isWriteHeader : Call → Bool
  | .WriteHeader _ => true
  | _ => false

/-- No `WriteHeader` call comes after an earlier `WriteHeader` or `Write`. -/
def statusWrittenOnce : List Call → Bool
  | [] => true
  | .Header :: cs => statusWrittenOnce cs
  | _ :: cs => !cs.any Call.isWriteHeader

/-! ## Sample handlers and requests -/

/-- A handler that calls `w.WriteHeader(404)` and returns. -/
def notFound : HandlerFunc := fun _ => .WriteHeader 404 fun _ => .ret

/-- A handler that calls `w.WriteHeader(404)`, then `w.WriteHeader(500)`, and returns. -/
def twice : HandlerFunc := fun _ => .WriteHeader 404 fun _ => .WriteHeader 500 fun _ => .ret

/-- A handler that sets no status: it reads the header map, writes two bytes and returns. -/
def bodyOnly : HandlerFunc := fun _ => .Header fun _ => .Write [111, 107] fun _ => .ret

/-- A handler that returns without touching its writer. -/
def silent : HandlerFunc := fun _ => .ret

/-- A handler that writes a byte and then panics. -/
def failing : HandlerFunc := fun _ => .Write [33] fun _ => .panic "boom"

/-- The request `GET /`. -/
def getRoot : http.Request := { Method := "GET", URLPath := "/" }

/-- The request `POST /missing`. -/
def postMissing : http.Request := { Method := "POST", URLPath := "/missing" }

/-- A clock whose n-th reading is `1000 * n` nanoseconds. -/
def sampleClock : Nat → Int := fun n => 1000 * n

end Davtro

/-! ## The portfolio table: `insertData` and `getData`

The table `portfolio (section TEXT UNIQUE, content TEXT)` is taken as a map from section to
content, and every query is taken to succeed. -/

namespace Portfolio

/-- The `portfolio` table: the content stored for a section, if there is a row for it. -/
abbrev Table := String → Option String

/-- The struct `PageData`. -/
structure PageData where
  About : String
  Education : String
  Skills : String
  Projects : String
  Experience : String
  Contact : String
deriving DecidableEq, Repr

/-- The map literal `data` of `insertData`, its entries in the order they are written. -/
def data : List (String × String) :=
  [
    ("about",
      "At around 2003-04 when I was 7-8 years old, I received my first computer... My plans for future are to work within Cyber Security company that would allow me to learn and grow within the company being able to give 200% from myself."),
    ("education",
      "BSc (Honours) in Computing & Cyber Security - Result - 2.1 (2016-2018), Higher Certificate in Computing & Cyber Security - Result - Distinction (2014-2016)."),
    ("skills",
      "Programming: Go, Python, JavaScript; Cybersecurity: Penetration Testing, Network Security; Tools: Docker, Kubernetes, Terraform."),
    ("projects",
      "Developed a secure web application for portfolio management; Contributed to open-source cybersecurity tools on GitHub."),
    ("experience",
      "Cybersecurity Intern at XYZ Corp (2017), Junior Developer at ABC Ltd (2018-2019)."),
    ("contact",
      "Email: dawid@example.com | LinkedIn: linkedin.com/in/dawidtrojanowski | GitHub: github.com/dawidtrojanowski")
  ]

/-- Query `SELECT COUNT(*) FROM portfolio WHERE section = $1`. -/
def count (t : Table) (sec : String) : Int :=
  match t sec with
  | some _ => 1
  | none => 0

/-- Statement `INSERT INTO portfolio (section, content) VALUES ($1, $2)`; on a section that
is already present the unique constraint rejects the row and the table stays as it is. -/
def insert (t : Table) (sec content : String) : Table :=
  match t sec with
  | some _ => t
  | none => fun k => if k = sec then some content else t k

/-- Body of the loop of `insertData` for one entry of `data`. -/
def insertData.step (t : Table) (e : String × String) : Table :=
  if count t e.1 = 0 then insert t e.1 e.2 else t

/-- The loop of `insertData` when `range` yields the entries in the order `order` (Go leaves
the iteration order of a map unspecified). -/
def insertDataIn (order : List (String × String)) (t : Table) : Table :=
  order.foldl insertData.step t

/-- Function `insertData`, iterating in the written order. -/
def insertData (t : Table) : Table := insertDataIn data t

/-- The slice `sections` of `getData`. -/
def sections : List String :=
  ["about", "education", "skills", "projects", "experience", "contact"]

/-- The `switch` of `getData`: store `content` in the field named by `sec`. -/
def getData.assign (d : PageData) (sec content : String) : PageData :=
  if sec = "about" then { d with About := content }
  else if sec = "education" then { d with Education := content }
  else if sec = "skills" then { d with Skills := content }
  else if sec = "projects" then { d with Projects := content }
  else if sec = "experience" then { d with Experience := content }
  else if sec = "contact" then { d with Contact := content }
  else d

/-- Function `getData`: a section without a row leaves its field empty. -/
def getData (t : Table) : PageData :=
  sections.foldl
    (fun d sec =>
      match t sec with
      | some content => getData.assign d sec content
      | none => d)
    { About := "", Education := "", Skills := "", Projects := "", Experience := "", Contact := "" }

/-- The static seed text of a section (empty for a section outside `data`). -/
def seed (sec : String) : String := (data.lookup sec).getD ""

/-- A table holding only a row for "about". -/
def sampleTable : Table := fun k => if k = "about" then some "custom" else none

end Portfolio

namespace Davtro

/-! ## Lemmas on runs -/

/-- Running a body on the decorator: same outcome, same calls and same effect on the
embedded writer as running it on that writer directly, and the cached code is the one
of the last `WriteHeader` call. -/
theorem run_methods {σ : Type} (W : http.ResponseWriter σ) (body : Body) :
    ∀ (w : σ) (sc : Int),
      (body.run (responseWriter.methods W) ⟨w, sc⟩).outcome = (body.run W w).outcome ∧
      (body.run (responseWriter.methods W) ⟨w, sc⟩).w.ResponseWriter = (body.run W w).w ∧
      (body.run (responseWriter.methods W) ⟨w, sc⟩).calls = (body.run W w).calls ∧
      (body.run (responseWriter.methods W) ⟨w, sc⟩).w.statusCode
        = lastWriteHeader sc (body.run W w).calls := by
  induction body with
  | ret => intro w sc; simp [Body.run, lastWriteHeader]
  | panic v => intro w sc; simp [Body.run, lastWriteHeader]
  | Header k ih =>
    intro w sc
    have h := ih (W.Header w).1 (W.Header w).2 sc
    simpa [Body.run, Run.logged, lastWriteHeader, responseWriter.methods,
      responseWriter.Header] using h
  | Write b k ih =>
    intro w sc
    have h := ih (W.Write w b).1 (W.Write w b).2 sc
    simpa [Body.run, Run.logged, lastWriteHeader, responseWriter.methods,
      responseWriter.Write] using h
  | WriteHeader code k ih =>
    intro w sc
    have h := ih (W.WriteHeader w code).1 (W.WriteHeader w code).2 code
    simpa [Body.run, Run.logged, lastWriteHeader, responseWriter.methods,
      responseWriter.WriteHeader] using h

/-- The log kept by a traced writer is the log it had followed by the calls of the run. -/
theorem run_traced {σ : Type} (W : http.ResponseWriter σ) (body : Body) :
    ∀ (w : σ) (log : List Call),
      (body.run (traced W) (w, log)).w = ((body.run W w).w, log ++ (body.run W w).calls) ∧
      (body.run (traced W) (w, log)).outcome = (body.run W w).outcome ∧
      (body.run (traced W) (w, log)).calls = (body.run W w).calls := by
  induction body with
  | ret => intro w log; simp [Body.run]
  | panic v => intro w log; simp [Body.run]
  | Header k ih =>
    intro w log
    have h := ih (W.Header w).1 (W.Header w).2 (log ++ [Call.Header])
    simpa [Body.run, Run.logged, traced] using h
  | Write b k ih =>
    intro w log
    have h := ih (W.Write w b).1 (W.Write w b).2 (log ++ [Call.Write b])
    simpa [Body.run, Run.logged, traced] using h
  | WriteHeader code k ih =>
    intro w log
    have h := ih (W.WriteHeader w code).1 (W.WriteHeader w code).2 (log ++ [Call.WriteHeader code])
    simpa [Body.run, Run.logged, traced] using h

/-- Without a `WriteHeader` call the cached code stays what it was. -/
theorem lastWriteHeader_of_none (cs : List Call) :
    ∀ sc : Int, (∀ code : Int, Call.WriteHeader code ∉ cs) → lastWriteHeader sc cs = sc := by
  induction cs with
  | nil => intro sc _; rfl
  | cons c cs ih =>
    intro sc h
    have hcs : ∀ code : Int, Call.WriteHeader code ∉ cs := fun code hc =>
      h code (List.mem_cons_of_mem _ hc)
    cases c with
    | Header => simpa [lastWriteHeader] using ih sc hcs
    | Write b => simpa [lastWriteHeader] using ih sc hcs
    | WriteHeader code => exact absurd (List.mem_cons_self _ _) (h code)

/-- When every `WriteHeader` call carries the code `S`, the cached code ends as `S` or as
what it was. -/
theorem lastWriteHeader_of_all (S : Int) (cs : List Call) :
    ∀ sc : Int, (∀ code : Int, Call.WriteHeader code ∈ cs → code = S) →
      lastWriteHeader sc cs = S ∨
        (lastWriteHeader sc cs = sc ∧ ∀ code : Int, Call.WriteHeader code ∉ cs) := by
  induction cs with
  | nil => intro sc _; right; simp [lastWriteHeader]
  | cons c cs ih =>
    intro sc h
    have hcs : ∀ code : Int, Call.WriteHeader code ∈ cs → code = S := fun code hc =>
      h code (List.mem_cons_of_mem _ hc)
    cases c with
    | Header =>
      rcases ih sc hcs with h1 | ⟨h1, h2⟩
      · left; simpa [lastWriteHeader] using h1
      · right; refine ⟨by simpa [lastWriteHeader] using h1, ?_⟩
        intro code hc; simp at hc; exact h2 code hc
    | Write b =>
      rcases ih sc hcs with h1 | ⟨h1, h2⟩
      · left; simpa [lastWriteHeader] using h1
      · right; refine ⟨by simpa [lastWriteHeader] using h1, ?_⟩
        intro code hc; simp at hc; exact h2 code hc
    | WriteHeader code =>
      have hS : code = S := h code (List.mem_cons_self _ _)
      left
      rcases ih code hcs with h1 | ⟨h1, _⟩
      · simpa [lastWriteHeader] using h1
      · simpa [lastWriteHeader, hS] using h1

/-- A log without a `WriteHeader` after the first status write leaves the cached code at
the first status written. -/
theorem lastWriteHeader_of_once (cs : List Call) (h : statusWrittenOnce cs = true) :
    lastWriteHeader 200 cs = (firstStatusWritten cs).getD 200 := by
  have hany : ∀ (l : List Call) (sc : Int), l.any Call.isWriteHeader = false →
      lastWriteHeader sc l = sc := by
    intro l sc hl
    apply lastWriteHeader_of_none
    intro code hc
    have : l.any Call.isWriteHeader = true := List.any_eq_true.mpr ⟨_, hc, rfl⟩
    simp [hl] at this
  induction cs with
  | nil => rfl
  | cons c cs ih =>
    cases c with
    | Header => simpa [lastWriteHeader, firstStatusWritten] using ih (by simpa [statusWrittenOnce] using h)
    | Write b =>
      have h1 : cs.any Call.isWriteHeader = false := by simpa [statusWrittenOnce] using h
      simpa [lastWriteHeader, firstStatusWritten] using hany cs 200 h1
    | WriteHeader code =>
      have h1 : cs.any Call.isWriteHeader = false := by simpa [statusWrittenOnce] using h
      simpa [lastWriteHeader, firstStatusWritten] using hany cs code h1

/-- The world after a call that returned: the clock was read twice and the two recording
statements ran with the cached status code. -/
theorem instrumentHandler_returned {σ : Type} (path : String) (handler : HandlerFunc)
    (W : http.ResponseWriter σ) (w : σ) (r : http.Request) (s : World)
    (hret : (wrappedRun handler W w r).outcome = Outcome.returned) :
    (instrumentHandler path handler W w r s).world =
      instrumentHandler.record path r.Method (wrappedRun handler W w r).w.statusCode
        (s.clock (s.reads + 1) - s.clock s.reads)
        { s with reads := s.reads + 1 + 1 } := by
  simp only [instrumentHandler, hret, time.Since, time.Now]

/-- The world after a call that panicked: only the clock was read. -/
theorem instrumentHandler_panicked {σ : Type} (path : String) (handler : HandlerFunc)
    (W : http.ResponseWriter σ) (w : σ) (r : http.Request) (s : World) (v : PanicValue)
    (hp : (wrappedRun handler W w r).outcome = Outcome.panicked v) :
    instrumentHandler path handler W w r s =
      ⟨Outcome.panicked v, (wrappedRun handler W w r).w.ResponseWriter,
        { s with reads := s.reads + 1 }⟩ := by
  simp only [instrumentHandler, hp, time.Now]

/-- Without a `WriteHeader` call, a status can only have been written by a body `Write`. -/
theorem firstStatusWritten_of_none (cs : List Call) (S : Int)
    (hno : ∀ code : Int, Call.WriteHeader code ∉ cs) (h : firstStatusWritten cs = some S) :
    S = 200 := by
  induction cs with
  | nil => simp [firstStatusWritten] at h
  | cons c cs ih =>
    cases c with
    | Header =>
      exact ih (fun code hc => hno code (List.mem_cons_of_mem _ hc))
        (by simpa [firstStatusWritten] using h)
    | Write b => simpa [firstStatusWritten] using h.symm
    | WriteHeader code => exact absurd (List.mem_cons_self _ _) (hno code)

/-- A handler whose first written status is `S` and whose every `WriteHeader` carries `S`
leaves `S` in the decorator. -/
theorem wrappedRun_status_of_writes {σ : Type} (handler : HandlerFunc)
    (W : http.ResponseWriter σ) (w : σ) (r : http.Request) (S : Int)
    (hfirst : firstStatusWritten (wrappedRun handler W w r).calls = some S)
    (hall : ∀ code : Int, Call.WriteHeader code ∈ (wrappedRun handler W w r).calls → code = S) :
    (wrappedRun handler W w r).w.statusCode = S := by
  have hm := run_methods W (handler r) w http.StatusOK
  have h1 : (wrappedRun handler W w r).w.statusCode
      = lastWriteHeader 200 (wrappedRun handler W w r).calls := by
    simp only [wrappedRun]; rw [hm.2.2.2, hm.2.2.1]; rfl
  rw [h1]
  rcases lastWriteHeader_of_all S _ 200 hall with h2 | ⟨h2, h3⟩
  · exact h2
  · rw [h2]; exact (firstStatusWritten_of_none _ S h3 hfirst).symm

/-- The counter after a list of invocations that all return with status `S` and method `M`. -/
theorem counter_after_invocations {σ : Type} (path M : String) (S : Int) (handler : HandlerFunc)
    (W : http.ResponseWriter σ) (reqs : List (http.Request × σ))
    (hM : ∀ q ∈ reqs, q.1.Method = M)
    (hh : ∀ (r : http.Request) (w : σ),
      (wrappedRun handler W w r).outcome = Outcome.returned ∧
      (wrappedRun handler W w r).w.statusCode = S) :
    ∀ s : World, (invocations path handler W reqs s).httpRequestsTotal (path, M, fmt.Sprintf_d S)
      = s.httpRequestsTotal (path, M, fmt.Sprintf_d S) + reqs.length := by
  induction reqs with
  | nil => intro s; simp [invocations]
  | cons q rest ih =>
    intro s
    obtain ⟨r, w⟩ := q
    have hr : r.Method = M := hM (r, w) (List.mem_cons_self _ _)
    have hrest : ∀ q ∈ rest, q.1.Method = M := fun q hq => hM q (List.mem_cons_of_mem _ hq)
    simp only [invocations]
    rw [ih hrest, instrumentHandler_returned path handler W w r s (hh r w).1, (hh r w).2, hr]
    simp [instrumentHandler.record, CounterVec.Inc]
    omega

/-- The labels under which a completed request is counted. -/
theorem record_counter (c : Completed) (s : World) (k : CounterKey) :
    (instrumentHandler.record c.path c.method c.statusCode c.duration s).httpRequestsTotal k
      = s.httpRequestsTotal k
        + if (c.path, c.method, fmt.Sprintf_d c.statusCode) = k then 1 else 0 := by
  by_cases h : k = (c.path, c.method, fmt.Sprintf_d c.statusCode)
  · subst h; simp [instrumentHandler.record, CounterVec.Inc]
  · have h2 : ¬ (c.path, c.method, fmt.Sprintf_d c.statusCode) = k := fun e => h e.symm
    simp [instrumentHandler.record, CounterVec.Inc, h, h2]

/-- The number of observations a completed request adds to a duration series. -/
theorem record_duration_length (c : Completed) (s : World) (k : DurationKey) :
    ((instrumentHandler.record c.path c.method c.statusCode c.duration s).httpRequestDuration
        k).length
      = (s.httpRequestDuration k).length + if (c.path, c.method) = k then 1 else 0 := by
  by_cases h : k = (c.path, c.method)
  · subst h; simp [instrumentHandler.record, HistogramVec.Observe]
  · have h2 : ¬ (c.path, c.method) = k := fun e => h e.symm
    simp [instrumentHandler.record, HistogramVec.Observe, h, h2]

/-- Closed form of the metric vectors after recording a list of completed requests. -/
theorem recordAll_closed (l : List Completed) :
    ∀ s : World,
      (∀ k : CounterKey, (recordAll l s).httpRequestsTotal k
        = s.httpRequestsTotal k
          + l.countP (fun c => decide ((c.path, c.method, fmt.Sprintf_d c.statusCode) = k))) ∧
      (∀ k : DurationKey, ((recordAll l s).httpRequestDuration k).length
        = (s.httpRequestDuration k).length
          + l.countP (fun c => decide ((c.path, c.method) = k))) := by
  induction l with
  | nil => intro s; simp [recordAll]
  | cons c l ih =>
    intro s
    have h := ih (instrumentHandler.record c.path c.method c.statusCode c.duration s)
    constructor
    · intro k
      have h1 := h.1 k
      simp only [recordAll, List.foldl_cons] at h1 ⊢
      rw [h1, record_counter, List.countP_cons]
      simp only [decide_eq_true_eq]
      omega
    · intro k
      have h1 := h.2 k
      simp only [recordAll, List.foldl_cons] at h1 ⊢
      rw [h1, record_duration_length, List.countP_cons]
      simp only [decide_eq_true_eq]
      omega

/-! ## The claims -/

/-- C1: when the wrapped handler returns normally and the status recorded by the decorator
is `S`, one call of the handler returned by `instrumentHandler(P, handler)` with a request of
method `M` raises the `http_requests_total` series `(P, M, S)` by exactly 1 and appends
exactly one observation to the `http_request_duration_seconds` series `(P, M)`. -/
theorem instrumentHandler_counts_once {σ : Type} (path : String) (handler : HandlerFunc)
    (W : http.ResponseWriter σ) (w : σ) (r : http.Request) (s : World) (S : Int)
    (hret : (wrappedRun handler W w r).outcome = Outcome.returned)
    (hS : (wrappedRun handler W w r).w.statusCode = S) :
    (instrumentHandler path handler W w r s).outcome = Outcome.returned ∧
    (instrumentHandler path handler W w r s).world.httpRequestsTotal
        (path, r.Method, fmt.Sprintf_d S)
      = s.httpRequestsTotal (path, r.Method, fmt.Sprintf_d S) + 1 ∧
    (instrumentHandler path handler W w r s).world.httpRequestDuration (path, r.Method)
      = s.httpRequestDuration (path, r.Method) ++ [s.clock (s.reads + 1) - s.clock s.reads] ∧
    ((instrumentHandler path handler W w r s).world.httpRequestDuration (path, r.Method)).length
      = (s.httpRequestDuration (path, r.Method)).length + 1 := by
  rw [instrumentHandler_returned path handler W w r s hret, hS]
  refine ⟨?_, ?_, ?_, ?_⟩
  · simp only [instrumentHandler, hret]
  · simp [instrumentHandler.record, CounterVec.Inc]
  · simp [instrumentHandler.record, HistogramVec.Observe]
  · simp [instrumentHandler.record, HistogramVec.Observe]

/-- Witness of C1: `notFound` behind the label "/" with the request `GET /`. -/
theorem instrumentHandler_counts_once_witness :
    (instrumentHandler "/" notFound nullWriter () getRoot (World.fresh sampleClock)).outcome
      = Outcome.returned ∧
    (instrumentHandler "/" notFound nullWriter () getRoot
        (World.fresh sampleClock)).world.httpRequestsTotal ("/", "GET", "404") = 0 + 1 ∧
    (instrumentHandler "/" notFound nullWriter () getRoot
        (World.fresh sampleClock)).world.httpRequestDuration ("/", "GET") = [] ++ [1000] ∧
    ((instrumentHandler "/" notFound nullWriter () getRoot
        (World.fresh sampleClock)).world.httpRequestDuration ("/", "GET")).length = 0 + 1 :=
  instrumentHandler_counts_once "/" notFound nullWriter () getRoot (World.fresh sampleClock) 404
    (by decide) (by decide)

/-- C2: when the wrapped handler returns without ever calling `WriteHeader` (whether or not
it writes a body), the decorator still holds 200 and the request counter is incremented under
the status label "200". -/
theorem instrumentHandler_default_status {σ : Type} (path : String) (handler : HandlerFunc)
    (W : http.ResponseWriter σ) (w : σ) (r : http.Request) (s : World)
    (hret : (wrappedRun handler W w r).outcome = Outcome.returned)
    (hno : ∀ code : Int, Call.WriteHeader code ∉ (wrappedRun handler W w r).calls) :
    (wrappedRun handler W w r).w.statusCode = 200 ∧
    (instrumentHandler path handler W w r s).world.httpRequestsTotal
      = CounterVec.Inc s.httpRequestsTotal (path, r.Method, "200") := by
  have hm := run_methods W (handler r) w http.StatusOK
  have hsc : (wrappedRun handler W w r).w.statusCode = 200 := by
    have h1 : (wrappedRun handler W w r).w.statusCode
        = lastWriteHeader http.StatusOK (wrappedRun handler W w r).calls := by
      simp only [wrappedRun]; rw [hm.2.2.2, hm.2.2.1]
    rw [h1, lastWriteHeader_of_none _ _ hno]; rfl
  refine ⟨hsc, ?_⟩
  rw [instrumentHandler_returned path handler W w r s hret, hsc]
  have h200 : fmt.Sprintf_d 200 = "200" := by decide
  simp [instrumentHandler.record, h200]

/-- Witness of C2: `bodyOnly` writes a body and no status. -/
theorem instrumentHandler_default_status_witness :
    (wrappedRun bodyOnly nullWriter () getRoot).w.statusCode = 200 ∧
    (instrumentHandler "/" bodyOnly nullWriter () getRoot
        (World.fresh sampleClock)).world.httpRequestsTotal
      = CounterVec.Inc (World.fresh sampleClock).httpRequestsTotal ("/", getRoot.Method, "200") :=
  instrumentHandler_default_status "/" bodyOnly nullWriter () getRoot (World.fresh sampleClock)
    (by decide) (by intro code h; simp [wrappedRun, bodyOnly, Body.run, Run.logged] at h)

/-- C3, as stated, fails: `twice` writes 404 first and then calls `WriteHeader(500)`; the
decorator ends with 500 although the first status written is 404.  The second `WriteHeader`
did reach the embedded writer. -/
theorem responseWriter_keeps_last_not_first :
    (wrappedRun twice (traced nullWriter) ((), []) getRoot).w.statusCode = 500 ∧
    firstStatusWritten (wrappedRun twice (traced nullWriter) ((), []) getRoot).calls = some 404 ∧
    (wrappedRun twice (traced nullWriter) ((), []) getRoot).w.ResponseWriter.2
      = [Call.WriteHeader 404, Call.WriteHeader 500] ∧
    ¬ ((wrappedRun twice (traced nullWriter) ((), []) getRoot).w.statusCode
      = (firstStatusWritten
          (wrappedRun twice (traced nullWriter) ((), []) getRoot).calls).getD 200) := by
  decide

/-- C3, amended: the status held by the decorator is the code of the last `WriteHeader` call
of the handler (200 when there was none), every such call overwriting it; it is the first
status written whenever no `WriteHeader` call follows an earlier `WriteHeader` or `Write`. -/
theorem responseWriter_status_last {σ : Type} (handler : HandlerFunc)
    (W : http.ResponseWriter σ) (w : σ) (r : http.Request) :
    (wrappedRun handler W w r).w.statusCode
      = lastWriteHeader 200 (wrappedRun handler W w r).calls ∧
    (statusWrittenOnce (wrappedRun handler W w r).calls = true →
      (wrappedRun handler W w r).w.statusCode
        = (firstStatusWritten (wrappedRun handler W w r).calls).getD 200) := by
  have hm := run_methods W (handler r) w http.StatusOK
  have h1 : (wrappedRun handler W w r).w.statusCode
      = lastWriteHeader 200 (wrappedRun handler W w r).calls := by
    simp only [wrappedRun]; rw [hm.2.2.2, hm.2.2.1]; rfl
  refine ⟨h1, fun h => ?_⟩
  rw [h1, lastWriteHeader_of_once _ h]

/-- Witness of C3 amended: `notFound` writes its status once, and 404 is recorded. -/
theorem responseWriter_status_last_witness :
    statusWrittenOnce (wrappedRun notFound nullWriter () getRoot).calls = true ∧
    (wrappedRun notFound nullWriter () getRoot).w.statusCode = 404 ∧
    (wrappedRun notFound nullWriter () getRoot).w.statusCode
      = (firstStatusWritten (wrappedRun notFound nullWriter () getRoot).calls).getD 200 :=
  ⟨by decide, by decide,
    (responseWriter_status_last notFound nullWriter () getRoot).2 (by decide)⟩

/-- C4: for a handler that uses only `Header`, `Write` and `WriteHeader`, the calls that reach
the underlying writer when the handler runs behind the decorator of `instrumentHandler` are,
with their arguments and in order, the calls it receives when the handler is invoked on it
directly: both logs are the previous log followed by the calls the handler made.  The
underlying writer ends in the same state and the handler ends the same way. -/
theorem wrapper_forwards_calls {σ : Type} (path : String) (handler : HandlerFunc)
    (W : http.ResponseWriter σ) (w : σ) (log : List Call) (r : http.Request) (s : World) :
    (wrappedRun handler (traced W) (w, log) r).w.ResponseWriter.2
      = ((handler r).run (traced W) (w, log)).w.2 ∧
    (wrappedRun handler (traced W) (w, log) r).w.ResponseWriter.2
      = log ++ (wrappedRun handler (traced W) (w, log) r).calls ∧
    (wrappedRun handler (traced W) (w, log) r).w.ResponseWriter.1
      = ((handler r).run (traced W) (w, log)).w.1 ∧
    (wrappedRun handler (traced W) (w, log) r).outcome
      = ((handler r).run (traced W) (w, log)).outcome ∧
    (instrumentHandler path handler (traced W) (w, log) r s).w
      = ((handler r).run (traced W) (w, log)).w := by
  have hm := run_methods (traced W) (handler r) (w, log) http.StatusOK
  have ht := run_traced W (handler r) w log
  have hw : (wrappedRun handler (traced W) (w, log) r).w.ResponseWriter
      = ((handler r).run (traced W) (w, log)).w := by
    simp only [wrappedRun]; exact hm.2.1
  have hc : (wrappedRun handler (traced W) (w, log) r).calls
      = ((handler r).run (traced W) (w, log)).calls := by
    simp only [wrappedRun]; exact hm.2.2.1
  refine ⟨by rw [hw], ?_, by rw [hw], ?_, ?_⟩
  · rw [hw, hc, ht.1, ht.2.2]
  · simp only [wrappedRun]; exact hm.1
  · rw [← hw]
    cases hout : (wrappedRun handler (traced W) (w, log) r).outcome with
    | returned => simp only [instrumentHandler, hout]
    | panicked v => simp only [instrumentHandler, hout]

/-- C5: when the wrapped handler panics, the handler returned by `instrumentHandler` ends with
the same panic and both metric vectors are what they were before the call. -/
theorem instrumentHandler_panic_skips {σ : Type} (path : String) (handler : HandlerFunc)
    (W : http.ResponseWriter σ) (w : σ) (r : http.Request) (s : World) (v : PanicValue)
    (hp : (wrappedRun handler W w r).outcome = Outcome.panicked v) :
    (instrumentHandler path handler W w r s).outcome = Outcome.panicked v ∧
    (instrumentHandler path handler W w r s).world.httpRequestsTotal = s.httpRequestsTotal ∧
    (instrumentHandler path handler W w r s).world.httpRequestDuration
      = s.httpRequestDuration := by
  rw [instrumentHandler_panicked path handler W w r s v hp]
  exact ⟨rfl, rfl, rfl⟩

/-- Witness of C5: `failing` panics with "boom" after a write. -/
theorem instrumentHandler_panic_skips_witness :
    (instrumentHandler "/" failing nullWriter () getRoot (World.fresh sampleClock)).outcome
      = Outcome.panicked "boom" ∧
    (instrumentHandler "/" failing nullWriter () getRoot
        (World.fresh sampleClock)).world.httpRequestsTotal
      = (World.fresh sampleClock).httpRequestsTotal ∧
    (instrumentHandler "/" failing nullWriter () getRoot
        (World.fresh sampleClock)).world.httpRequestDuration
      = (World.fresh sampleClock).httpRequestDuration :=
  instrumentHandler_panic_skips "/" failing nullWriter () getRoot (World.fresh sampleClock) "boom"
    (by decide)

/-- C6, as stated, fails: no method label fixed at registration receives the count of every
request.  Behind the label "/", `GET /` is counted under "GET" and `POST /missing` under
"POST". -/
theorem no_registered_method_label :
    ¬ ∃ M : String, ∀ r : http.Request,
      (instrumentHandler "/" silent nullWriter () r
        (World.fresh sampleClock)).world.httpRequestsTotal ("/", M, "200") = 1 := by
  rintro ⟨M, hM⟩
  have h1 := hM getRoot
  have h2 := hM postMissing
  have e1 : (instrumentHandler "/" silent nullWriter () getRoot
      (World.fresh sampleClock)).world.httpRequestsTotal
        = CounterVec.Inc (fun _ => 0) ("/", "GET", "200") := by
    rw [instrumentHandler_returned _ _ _ _ _ _ (by decide)]; rfl
  have e2 : (instrumentHandler "/" silent nullWriter () postMissing
      (World.fresh sampleClock)).world.httpRequestsTotal
        = CounterVec.Inc (fun _ => 0) ("/", "POST", "200") := by
    rw [instrumentHandler_returned _ _ _ _ _ _ (by decide)]; rfl
  rw [e1] at h1
  rw [e2] at h2
  simp only [CounterVec.Inc] at h1 h2
  by_cases hg : M = "GET"
  · subst hg
    simp at h2
  · simp [hg] at h1

/-- C6, amended: `instrumentHandler` takes a path label only; a call that returns records both
metrics under the method of the incoming request, `r.Method`, and leaves every series with
another method label as it was. -/
theorem instrumentHandler_method_from_request {σ : Type} (path : String)
    (handler : HandlerFunc) (W : http.ResponseWriter σ) (w : σ) (r : http.Request) (s : World)
    (hret : (wrappedRun handler W w r).outcome = Outcome.returned) :
    (instrumentHandler path handler W w r s).world.httpRequestsTotal
      = CounterVec.Inc s.httpRequestsTotal
          (path, r.Method, fmt.Sprintf_d (wrappedRun handler W w r).w.statusCode) ∧
    (instrumentHandler path handler W w r s).world.httpRequestDuration
      = HistogramVec.Observe s.httpRequestDuration (path, r.Method)
          (s.clock (s.reads + 1) - s.clock s.reads) ∧
    ∀ M : String, M ≠ r.Method →
      (∀ p status : String,
        (instrumentHandler path handler W w r s).world.httpRequestsTotal (p, M, status)
          = s.httpRequestsTotal (p, M, status)) ∧
      (∀ p : String,
        (instrumentHandler path handler W w r s).world.httpRequestDuration (p, M)
          = s.httpRequestDuration (p, M)) := by
  rw [instrumentHandler_returned path handler W w r s hret]
  refine ⟨rfl, rfl, fun M hM => ⟨fun p status => ?_, fun p => ?_⟩⟩
  · simp [instrumentHandler.record, CounterVec.Inc, hM]
  · simp [instrumentHandler.record, HistogramVec.Observe, hM]

/-- Witness of C6 amended: `POST /missing` behind the label "/". -/
theorem instrumentHandler_method_from_request_witness :
    (instrumentHandler "/" silent nullWriter () postMissing
        (World.fresh sampleClock)).world.httpRequestsTotal ("/", "POST", "200") = 1 ∧
    (instrumentHandler "/" silent nullWriter () postMissing
        (World.fresh sampleClock)).world.httpRequestsTotal ("/", "GET", "200") = 0 ∧
    (instrumentHandler "/" silent nullWriter () postMissing
        (World.fresh sampleClock)).world.httpRequestDuration ("/", "POST") = [1000] := by
  have h := instrumentHandler_method_from_request "/" silent nullWriter () postMissing
    (World.fresh sampleClock) (by decide)
  refine ⟨?_, ?_, ?_⟩
  · rw [h.1]; decide
  · rw [h.1]; decide
  · rw [h.2.1]; decide

/-- C7, as stated, fails: every run of `twice` returns and the status it writes is 404 (the
first status written), yet after five `GET /` invocations behind "/" from fresh metric vectors
the request counter for `("/", "GET", "404")` is 0, not 5; the five requests are counted under
"500", the code of the later `WriteHeader` call. -/
theorem invocations_count_fails_for_twice :
    (∀ (r : http.Request) (w : Unit),
      (wrappedRun twice nullWriter w r).outcome = Outcome.returned ∧
      firstStatusWritten (wrappedRun twice nullWriter w r).calls = some 404) ∧
    (invocations "/" twice nullWriter (List.replicate 5 (getRoot, ()))
      (World.fresh sampleClock)).httpRequestsTotal ("/", "GET", "404") = 0 ∧
    (invocations "/" twice nullWriter (List.replicate 5 (getRoot, ()))
      (World.fresh sampleClock)).httpRequestsTotal ("/", "GET", "500") = 5 ∧
    ¬ ((invocations "/" twice nullWriter (List.replicate 5 (getRoot, ()))
      (World.fresh sampleClock)).httpRequestsTotal ("/", "GET", "404") = 5) := by
  refine ⟨fun r w => ⟨rfl, rfl⟩, ?_, ?_, ?_⟩ <;> decide

/-- C7, amended: starting from fresh metric vectors, after `n` invocations with method `M` of
`instrumentHandler(P, h)`, where every run of `h` returns, writes the status `S` (its first
written status is `S`) and passes no other code than `S` to `WriteHeader`, the request counter
of the series `(P, M, S)`, whose status label is the decimal text of `S`, is `n`. -/
theorem invocations_count {σ : Type} (n : Nat) (path M : String) (S : Int)
    (handler : HandlerFunc) (W : http.ResponseWriter σ) (reqs : List (http.Request × σ))
    (clock : Nat → Int)
    (hn : reqs.length = n)
    (hM : ∀ q ∈ reqs, q.1.Method = M)
    (hh : ∀ (r : http.Request) (w : σ),
      (wrappedRun handler W w r).outcome = Outcome.returned ∧
      firstStatusWritten (wrappedRun handler W w r).calls = some S ∧
      ∀ code : Int, Call.WriteHeader code ∈ (wrappedRun handler W w r).calls → code = S) :
    (invocations path handler W reqs (World.fresh clock)).httpRequestsTotal
      (path, M, toString S) = n := by
  have hh2 : ∀ (r : http.Request) (w : σ),
      (wrappedRun handler W w r).outcome = Outcome.returned ∧
      (wrappedRun handler W w r).w.statusCode = S := fun r w =>
    ⟨(hh r w).1, wrappedRun_status_of_writes handler W w r S (hh r w).2.1 (hh r w).2.2⟩
  show (invocations path handler W reqs (World.fresh clock)).httpRequestsTotal
      (path, M, fmt.Sprintf_d S) = n
  rw [counter_after_invocations path M S handler W reqs hM hh2 (World.fresh clock), hn]
  simp [World.fresh]

/-- Witness of C7 amended: five `GET /` requests to `notFound` behind "/" give
`counter("/", "GET", "404") = 5`. -/
theorem invocations_count_witness :
    (invocations "/" notFound nullWriter (List.replicate 5 (getRoot, ()))
      (World.fresh sampleClock)).httpRequestsTotal ("/", "GET", "404") = 5 :=
  invocations_count 5 "/" "GET" 404 notFound nullWriter (List.replicate 5 (getRoot, ()))
    sampleClock (by decide) (by decide)
    (fun r w => ⟨rfl, rfl, by
      intro code h
      simpa [wrappedRun, notFound, Body.run, Run.logged] using h⟩)

/-- C8: recording is commutative.  For a list of completed requests and any permutation of
it, the recording statements applied in either order to the same metric vectors give the same
count for every `(path, method, status)` key and the same number of duration observations for
every `(path, method)` key. -/
theorem recordAll_perm (l1 l2 : List Completed) (s : World) (h : l1.Perm l2) :
    (∀ k : CounterKey,
      (recordAll l1 s).httpRequestsTotal k = (recordAll l2 s).httpRequestsTotal k) ∧
    (∀ k : DurationKey,
      ((recordAll l1 s).httpRequestDuration k).length
        = ((recordAll l2 s).httpRequestDuration k).length) := by
  constructor
  · intro k
    rw [(recordAll_closed l1 s).1 k, (recordAll_closed l2 s).1 k, h.countP_eq]
  · intro k
    rw [(recordAll_closed l1 s).2 k, (recordAll_closed l2 s).2 k, h.countP_eq]

/-- Witness of C8: two completed requests recorded in both orders. -/
theorem recordAll_perm_witness :
    (∀ k : CounterKey,
      (recordAll [⟨"/", "GET", 200, 7⟩, ⟨"/", "POST", 404, 9⟩]
          (World.fresh sampleClock)).httpRequestsTotal k
        = (recordAll [⟨"/", "POST", 404, 9⟩, ⟨"/", "GET", 200, 7⟩]
          (World.fresh sampleClock)).httpRequestsTotal k) ∧
    (∀ k : DurationKey,
      ((recordAll [⟨"/", "GET", 200, 7⟩, ⟨"/", "POST", 404, 9⟩]
          (World.fresh sampleClock)).httpRequestDuration k).length
        = ((recordAll [⟨"/", "POST", 404, 9⟩, ⟨"/", "GET", 200, 7⟩]
          (World.fresh sampleClock)).httpRequestDuration k).length) :=
  recordAll_perm _ _ (World.fresh sampleClock) (List.Perm.swap _ _ [])

/-- C9: one dispatch by `instrumentHandler(P, h)` of a request with method `M` and recorded
status `S` leaves every request-counter series with key other than `(P, M, S)` and every
duration series with key other than `(P, M)` unchanged; in particular no series whose path
label differs from the registration label `P` changes, whatever the URL path of the
request. -/
theorem instrumentHandler_frame {σ : Type} (path : String) (handler : HandlerFunc)
    (W : http.ResponseWriter σ) (w : σ) (r : http.Request) (s : World) :
    (∀ k : CounterKey,
      k ≠ (path, r.Method, fmt.Sprintf_d (wrappedRun handler W w r).w.statusCode) →
      (instrumentHandler path handler W w r s).world.httpRequestsTotal k
        = s.httpRequestsTotal k) ∧
    (∀ k : DurationKey, k ≠ (path, r.Method) →
      (instrumentHandler path handler W w r s).world.httpRequestDuration k
        = s.httpRequestDuration k) ∧
    (∀ p M status : String, p ≠ path →
      (instrumentHandler path handler W w r s).world.httpRequestsTotal (p, M, status)
        = s.httpRequestsTotal (p, M, status) ∧
      (instrumentHandler path handler W w r s).world.httpRequestDuration (p, M)
        = s.httpRequestDuration (p, M)) := by
  cases hout : (wrappedRun handler W w r).outcome with
  | panicked v =>
    rw [instrumentHandler_panicked path handler W w r s v hout]
    exact ⟨fun _ _ => rfl, fun _ _ => rfl, fun _ _ _ _ => ⟨rfl, rfl⟩⟩
  | returned =>
    rw [instrumentHandler_returned path handler W w r s hout]
    refine ⟨fun k hk => ?_, fun k hk => ?_, fun p M status hp => ⟨?_, ?_⟩⟩
    · simp [instrumentHandler.record, CounterVec.Inc, hk]
    · simp [instrumentHandler.record, HistogramVec.Observe, hk]
    · simp [instrumentHandler.record, CounterVec.Inc, hp]
    · simp [instrumentHandler.record, HistogramVec.Observe, hp]

/-- Witness of C9: `POST /missing` served behind the label "/" leaves the series labelled
"/missing" untouched. -/
theorem instrumentHandler_frame_witness :
    (instrumentHandler "/" silent nullWriter () postMissing
        (World.fresh sampleClock)).world.httpRequestsTotal ("/missing", "POST", "200")
      = (World.fresh sampleClock).httpRequestsTotal ("/missing", "POST", "200") ∧
    (instrumentHandler "/" silent nullWriter () postMissing
        (World.fresh sampleClock)).world.httpRequestDuration ("/missing", "POST")
      = (World.fresh sampleClock).httpRequestDuration ("/missing", "POST") :=
  ⟨(instrumentHandler_frame "/" silent nullWriter () postMissing (World.fresh sampleClock)).1
      ("/missing", "POST", "200") (by decide),
    (instrumentHandler_frame "/" silent nullWriter () postMissing (World.fresh sampleClock)).2.1
      ("/missing", "POST") (by decide)⟩

end Davtro

namespace Portfolio

/-- The count query is 0 exactly for a section without a row. -/
theorem count_eq_zero (t : Table) (sec : String) : count t sec = 0 ↔ t sec = none := by
  unfold count
  cases t sec <;> simp

/-- One loop iteration on a section that has no row stores the entry. -/
theorem step_absent (t : Table) (e : String × String) (h : t e.1 = none) (k : String) :
    insertData.step t e k = if k = e.1 then some e.2 else t k := by
  simp [insertData.step, count_eq_zero, insert, h]

/-- One loop iteration on a section that has a row changes nothing. -/
theorem step_present (t : Table) (e : String × String) (c : String) (h : t e.1 = some c) :
    insertData.step t e = t := by
  have : ¬ count t e.1 = 0 := by rw [count_eq_zero, h]; simp
  simp [insertData.step, this]

/-- One loop iteration keeps every row already there. -/
theorem step_keeps (t : Table) (e : String × String) (k c : String) (h : t k = some c) :
    insertData.step t e k = some c := by
  cases he : t e.1 with
  | some c1 => rw [step_present t e c1 he, h]
  | none =>
    rw [step_absent t e he]
    have hk : k ≠ e.1 := fun hke => by rw [hke, he] at h; cases h
    simp [hk, h]

/-- The loop keeps every row already there. -/
theorem insertDataIn_keeps (order : List (String × String)) :
    ∀ (t : Table) (k c : String), t k = some c → insertDataIn order t k = some c := by
  induction order with
  | nil => intro t k c h; simpa [insertDataIn] using h
  | cons e rest ih =>
    intro t k c h
    have := ih (insertData.step t e) k c (step_keeps t e k c h)
    simpa [insertDataIn] using this

/-- The loop stores the entry of every missing section it iterates over. -/
theorem insertDataIn_adds (order : List (String × String)) :
    (order.map Prod.fst).Nodup →
    ∀ (t : Table) (k v : String), (k, v) ∈ order → t k = none →
      insertDataIn order t k = some v := by
  induction order with
  | nil => intro _ t k v hmem; simp at hmem
  | cons e rest ih =>
    intro hnd t k v hmem hk
    have hnd2 : e.1 ∉ rest.map Prod.fst ∧ (rest.map Prod.fst).Nodup := by
      simpa using hnd
    have hfold : insertDataIn (e :: rest) t = insertDataIn rest (insertData.step t e) := by
      simp [insertDataIn]
    rw [hfold]
    rcases List.mem_cons.mp hmem with heq | hrest
    · subst heq
      apply insertDataIn_keeps
      rw [step_absent t (k, v) hk]
      simp
    · have hne : k ≠ e.1 := by
        intro hke
        apply hnd2.1
        rw [← hke]
        exact List.mem_map.mpr ⟨(k, v), hrest, rfl⟩
      apply ih hnd2.2 _ k v hrest
      cases he : t e.1 with
      | some c1 => rw [step_present t e c1 he, hk]
      | none => rw [step_absent t e he]; simp [hne, hk]

/-- The loop adds no row for a section it does not iterate over. -/
theorem insertDataIn_absent (order : List (String × String)) :
    ∀ (t : Table) (k : String), k ∉ order.map Prod.fst → t k = none →
      insertDataIn order t k = none := by
  induction order with
  | nil => intro t k _ h; simpa [insertDataIn] using h
  | cons e rest ih =>
    intro t k hk h
    have hk2 : k ≠ e.1 ∧ k ∉ rest.map Prod.fst := by
      simpa [not_or] using hk
    have hfold : insertDataIn (e :: rest) t = insertDataIn rest (insertData.step t e) := by
      simp [insertDataIn]
    rw [hfold]
    apply ih _ k hk2.2
    cases he : t e.1 with
    | some c1 => rw [step_present t e c1 he, h]
    | none => rw [step_absent t e he]; simp [hk2.1, h]

/-- The loop changes nothing in a table that has a row for every section iterated over. -/
theorem insertDataIn_fixed (order : List (String × String)) :
    ∀ t : Table, (∀ e ∈ order, ∃ c, t e.1 = some c) → insertDataIn order t = t := by
  induction order with
  | nil => intro t _; rfl
  | cons e rest ih =>
    intro t h
    obtain ⟨c, hc⟩ := h e (List.mem_cons_self _ _)
    have hfold : insertDataIn (e :: rest) t = insertDataIn rest (insertData.step t e) := by
      simp [insertDataIn]
    rw [hfold, step_present t e c hc]
    exact ih t (fun e1 he1 => h e1 (List.mem_cons_of_mem _ he1))

/-- The six keys of `data` are distinct. -/
theorem data_keys_nodup : (data.map Prod.fst).Nodup := by
  decide

/-- After the loop over a permutation of `data` every entry of `data` has a row. -/
theorem insertDataIn_covers (order : List (String × String)) (h : order.Perm data) (t : Table) :
    ∀ e ∈ data, ∃ c, insertDataIn order t e.1 = some c := by
  intro e he
  have hnd : (order.map Prod.fst).Nodup := (h.map Prod.fst).nodup_iff.mpr data_keys_nodup
  cases ht : t e.1 with
  | some c => exact ⟨c, insertDataIn_keeps order t e.1 c ht⟩
  | none => exact ⟨e.2, insertDataIn_adds order hnd t e.1 e.2 (h.mem_iff.mpr he) ht⟩

/-- What `getData` returns, field by field. -/
theorem getData_fields (t : Table) :
    getData t =
      { About := (t "about").getD "", Education := (t "education").getD "",
        Skills := (t "skills").getD "", Projects := (t "projects").getD "",
        Experience := (t "experience").getD "", Contact := (t "contact").getD "" } := by
  simp only [getData, sections, List.foldl]
  cases t "about" <;> cases t "education" <;> cases t "skills" <;> cases t "projects" <;>
    cases t "experience" <;> cases t "contact" <;> simp [getData.assign]

/-- The row of a section of `data` after the loop: the content it had, else the seed. -/
theorem insertDataIn_row (order : List (String × String)) (h : order.Perm data) (t : Table)
    (sec : String) (hsec : (sec, seed sec) ∈ data) :
    insertDataIn order t sec = some ((t sec).getD (seed sec)) := by
  have hnd : (order.map Prod.fst).Nodup := (h.map Prod.fst).nodup_iff.mpr data_keys_nodup
  cases ht : t sec with
  | some c => simpa using insertDataIn_keeps order t sec c ht
  | none => simpa using insertDataIn_adds order hnd t sec (seed sec) (h.mem_iff.mpr hsec) ht

/-- C10: seeding is idempotent and non-destructive.  Whatever the order in which the loop of
`insertData` visits the six entries of `data`, for every initial table: the content of every
section already present is unchanged; each of the six static sections that is missing is
added with its static text; a second run, in any order, changes nothing, in particular
`insertData (insertData t) = insertData t`; and `getData` after the seeding returns, for each
of the six fields of `PageData`, the content the section had if it was present and the
static seed text otherwise. -/
theorem insertData_idempotent (order order2 : List (String × String)) (t : Table)
    (h : order.Perm data) (h2 : order2.Perm data) :
    (∀ sec c : String, t sec = some c → insertDataIn order t sec = some c) ∧
    (∀ e ∈ data, t e.1 = none → insertDataIn order t e.1 = some e.2) ∧
    insertDataIn order2 (insertDataIn order t) = insertDataIn order t ∧
    insertData (insertData t) = insertData t ∧
    getData (insertDataIn order t) =
      { About := (t "about").getD (seed "about"),
        Education := (t "education").getD (seed "education"),
        Skills := (t "skills").getD (seed "skills"),
        Projects := (t "projects").getD (seed "projects"),
        Experience := (t "experience").getD (seed "experience"),
        Contact := (t "contact").getD (seed "contact") } := by
  have hnd : (order.map Prod.fst).Nodup := (h.map Prod.fst).nodup_iff.mpr data_keys_nodup
  refine ⟨fun sec c hc => insertDataIn_keeps order t sec c hc,
    fun e he hnone => insertDataIn_adds order hnd t e.1 e.2 (h.mem_iff.mpr he) hnone, ?_, ?_, ?_⟩
  · apply insertDataIn_fixed
    intro e he
    exact insertDataIn_covers order h t e (h2.mem_iff.mp he)
  · exact insertDataIn_fixed data _ (insertDataIn_covers data (List.Perm.refl _) t)
  · rw [getData_fields,
      insertDataIn_row order h t "about" (by simp [seed, data, List.lookup]),
      insertDataIn_row order h t "education" (by simp [seed, data, List.lookup]),
      insertDataIn_row order h t "skills" (by simp [seed, data, List.lookup]),
      insertDataIn_row order h t "projects" (by simp [seed, data, List.lookup]),
      insertDataIn_row order h t "experience" (by simp [seed, data, List.lookup]),
      insertDataIn_row order h t "contact" (by simp [seed, data, List.lookup])]
    rfl

/-- Witness of C10: the loop run in reverse order on a table that holds only a row for
"about" keeps that row and seeds the others; `getData` then shows the kept content. -/
theorem insertData_idempotent_witness :
    insertDataIn data.reverse sampleTable "about" = some "custom" ∧
    insertDataIn data (insertDataIn data.reverse sampleTable)
      = insertDataIn data.reverse sampleTable ∧
    (getData (insertDataIn data.reverse sampleTable)).About = "custom" ∧
    (getData (insertDataIn data.reverse sampleTable)).Experience
      = "Cybersecurity Intern at XYZ Corp (2017), Junior Developer at ABC Ltd (2018-2019)." := by
  have h := insertData_idempotent data.reverse data sampleTable (List.reverse_perm data)
    (List.Perm.refl data)
  refine ⟨h.1 "about" "custom" (by decide), h.2.2.1, ?_, ?_⟩
  · rw [h.2.2.2.2]; decide
  · rw [h.2.2.2.2]; decide

end Portfolio
